import Mathlib

/-!
# Verification of the `PostgresStore` session store (`src/tokio_postgres_sessions.rs`)

Shallow embedding of the persistent session/record store.  The database
table `"{schema}"."{table}" (id text primary key, data bytea, expiry_date
timestamptz)` is modelled as a list of rows; timestamps are modelled as UTC
nanoseconds (`Int`), matching `timestamp_from_offset`, which converts an
`OffsetDateTime` to a `jiff::Timestamp` through its nanosecond count.
Bytes of the `bytea` payload are modelled as `Nat` cells.
-/

namespace Dainty

/-- A row of the session table: `id text`, `data bytea`, `expiry_date timestamptz`
(UTC nanoseconds). -/
structure Row where
  id : String
  data : List Nat
  expiry_date : Int
deriving DecidableEq, Repr

/-- The session table, as the list of its rows. -/
abbrev DB := List Row

/-- The primary-key invariant enforced by `id text primary key not null`:
each identifier occupies at most one row. -/
def uniqueIds (db : DB) : Prop := (db.map Row.id).Nodup

instance (db : DB) : Decidable (uniqueIds db) := by
  unfold uniqueIds; infer_instance

/-- Modelled from the spec: the `rmp_serde` MessagePack codec used on
`Record` values is an external crate; following the spec's codec contract
("serializes/deserializes a Record's payload to/from a compact binary
representation"), the in-memory `Record` is its identifier, an associative
payload, and the expiry timestamp. -/
structure Record where
  id : String
  data : List (String × String)
  expiry_date : Int
deriving DecidableEq, Repr

/-! ## Codec

Modelled from the spec: the codec is the external `rmp_serde` crate
(`rmp_serde::to_vec` in `save_with_conn`, `rmp_serde::from_slice` in `load`);
its code is not part of this repository.  Following the spec, the codec
"serializes/deserializes a Record's payload to/from a compact binary
representation": a length-prefixed binary encoding over byte cells. -/

/-- Modelled from the spec: encoding of one string, a length prefix followed
by the code points of its characters. -/
def encString (s : String) : List Nat :=
  s.data.length :: s.data.map Char.toNat

/-- Decoder for `encString`; returns the decoded string and the remaining input. -/
def decString : List Nat → Option (String × List Nat)
  | [] => none
  | n :: rest =>
    if n ≤ rest.length then
      some (⟨(rest.take n).map Char.ofNat⟩, rest.drop n)
    else none

/-- Modelled from the spec: encoding of a signed timestamp, a sign cell
followed by the magnitude. -/
def encInt (i : Int) : List Nat :=
  if i < 0 then [1, (-i).toNat] else [0, i.toNat]

/-- Decoder for `encInt`. -/
def decInt : List Nat → Option (Int × List Nat)
  | s :: n :: rest =>
    if s = 0 then some ((n : Int), rest)
    else if s = 1 then some (-(n : Int), rest)
    else none
  | _ => none

/-- Modelled from the spec: encoding of one key/value entry of the payload map. -/
def encPair (p : String × String) : List Nat :=
  encString p.1 ++ encString p.2

/-- Decoder for `encPair`. -/
def decPair (l : List Nat) : Option ((String × String) × List Nat) :=
  match decString l with
  | none => none
  | some (k, l1) =>
    match decString l1 with
    | none => none
    | some (v, l2) => some ((k, v), l2)

/-- Concatenated encodings of the payload entries. -/
def encPairsBody (ps : List (String × String)) : List Nat :=
  match ps with
  | [] => []
  | p :: rest => encPair p ++ encPairsBody rest

/-- Modelled from the spec: encoding of the payload map, a count prefix
followed by the entry encodings. -/
def encPairs (ps : List (String × String)) : List Nat :=
  ps.length :: encPairsBody ps

/-- Decoder for a known number of payload entries. -/
def decPairsAux : Nat → List Nat → Option (List (String × String) × List Nat)
  | 0, l => some ([], l)
  | n + 1, l =>
    match decPair l with
    | none => none
    | some (p, l1) =>
      match decPairsAux n l1 with
      | none => none
      | some (ps, l2) => some (p :: ps, l2)

/-- Decoder for `encPairs`. -/
def decPairs (l : List Nat) : Option (List (String × String) × List Nat) :=
  match l with
  | [] => none
  | n :: rest => decPairsAux n rest

/-- Modelled from the spec: `rmp_serde::to_vec(record)` — the serialized form
written to the `data` column. -/
def encRecord (r : Record) : List Nat :=
  encString r.id ++ encPairs r.data ++ encInt r.expiry_date

/-- Modelled from the spec: `rmp_serde::from_slice(data)` — deserialization of
the `data` column; fails (`Decode` error) on malformed input. -/
def decRecord (l : List Nat) : Option Record :=
  match decString l with
  | none => none
  | some (id, l1) =>
    match decPairs l1 with
    | none => none
    | some (ps, l2) =>
      match decInt l2 with
      | none => none
      | some (e, l3) =>
        match l3 with
        | [] => some ⟨id, ps, e⟩
        | _ :: _ => none

/-! ## Store state and error taxonomy -/

/-- The error taxonomy surfaced to callers (`session_store::Error` as mapped
by `From<PgStoreError>`). -/
inductive StoreError
  | Backend : String → StoreError
  | Decode : String → StoreError
  | Encode : String → StoreError
deriving DecidableEq, Repr

/-- The two clocks involved: `appNow` is the application host clock
(`OffsetDateTime::now_utc()` read in-process) and `serverNow` is the
database server clock (`now() at time zone 'utc'` evaluated in SQL).
Both in UTC nanoseconds. -/
structure Clocks where
  appNow : Int
  serverNow : Int
deriving DecidableEq, Repr

/-- `timestamp_from_offset`: converts `time::OffsetDateTime` to
`jiff::Timestamp` through `unix_timestamp_nanos`; both types are modelled
by their UTC nanosecond count, so the conversion carries the count over
(the `jiff` range check is outside the claims and elided). -/
def timestamp_from_offset (dtUtcNanos : Int) : Int := dtUtcNanos

/-! ## Store operations (`impl SessionStore for PostgresStore`) -/

/-- `id_exists`: `select exists(select 1 from t where id = $1)`. -/
def id_exists (db : DB) (id : String) : Bool :=
  db.any (fun row => row.id == id)

/-- `save_with_conn`: the single atomic statement
`insert into t (id, data, expiry_date) values ($1, $2, $3)
on conflict (id) do update set data = excluded.data,
expiry_date = excluded.expiry_date`, with `$2 = rmp_serde::to_vec(record)`
and `$3 = timestamp_from_offset(record.expiry_date)`.  The conditional here
is the upsert semantics of the statement itself, not a client-side check.
`upsertRow r` is the row the statement writes. -/
def upsertRow (r : Record) : Row :=
  ⟨r.id, encRecord r, timestamp_from_offset r.expiry_date⟩

def save_with_conn (db : DB) (r : Record) : DB :=
  if id_exists db r.id then
    db.map (fun row => if row.id == r.id then upsertRow r else row)
  else
    db ++ [upsertRow r]

/-- `save`: delegates to `save_with_conn` on a pooled connection. -/
def save (db : DB) (r : Record) : DB :=
  save_with_conn db r

/-- The free-id search of `create`: `while self.id_exists(&tx, &record.id) {
record.id = Id::default() }`.  `gen` is the stream of ids that successive
`Id::default()` draws would produce; the loop terminates at the first id no
existing row holds. -/
def findFreeId (db : DB) (id : String) (gen : List String) : Option String :=
  if id_exists db id then
    match gen with
    | [] => none
    | g :: gs => findFreeId db g gs
  else some id

/-- `create`: inside one transaction, loop the existence check regenerating
`record.id` until a free id is found, then `save_with_conn` and commit.
The whole check-then-insert runs against one snapshot `db` (the
transaction); `none` models the loop never finding a free id. -/
def create (db : DB) (r : Record) (gen : List String) : Option DB :=
  match findFreeId db r.id gen with
  | some i => some (save_with_conn db { r with id := i })
  | none => none

/-- The row filter of `load`: `where id = $1 and expiry_date > $2`. -/
def rowLive (id : String) (now : Int) (row : Row) : Bool :=
  row.id == id && now < row.expiry_date

/-- `load` with the query parameter `$2 = now` made explicit:
`select data from t where id = $1 and expiry_date > $2`, then
`rmp_serde::from_slice` on the returned `data` column. -/
def load (db : DB) (id : String) (now : Int) : Except StoreError (Option Record) :=
  match db.find? (rowLive id now) with
  | some row =>
    match decRecord row.data with
    | some r => .ok (some r)
    | none => .error (.Decode "invalid payload")
  | none => .ok none

/-- `load` as the code runs it: the `$2` parameter is
`timestamp_from_offset(OffsetDateTime::now_utc())`, the application host
clock reading. -/
def load_op (db : DB) (id : String) (ck : Clocks) : Except StoreError (Option Record) :=
  load db id (timestamp_from_offset ck.appNow)

/-- `delete`: `delete from t where id = $1`, unconditional. -/
def delete (db : DB) (id : String) : DB :=
  db.filter (fun row => !(row.id == id))

/-- `delete_expired` with the server timestamp made explicit:
`delete from t where expiry_date < (now() at time zone 'utc')`. -/
def delete_expired (db : DB) (now : Int) : DB :=
  db.filter (fun row => !(row.expiry_date < now))

/-- `delete_expired` as the code runs it: the timestamp is evaluated by the
database server inside the statement. -/
def delete_expired_op (db : DB) (ck : Clocks) : DB :=
  delete_expired db ck.serverNow

/-! ## Construction-time configuration (`PostgresStore::new`, `with_schema_name`,
`with_table_name`, `is_valid_identifier`) -/

/-- The configurable part of `PostgresStore` (the pool handle carries no
claim-relevant state). -/
structure PostgresStore where
  schema_name : String
  table_name : String
deriving DecidableEq, Repr

/-- `PostgresStore::new`: the default namespace. -/
def PostgresStore.new : PostgresStore :=
  ⟨"tower_sessions", "session"⟩

/-- `is_valid_identifier`: non-empty, first character a letter or underscore,
every character alphanumeric, underscore or dollar.  Rust classifies with
Unicode `is_alphabetic`/`is_alphanumeric`; the model uses the Lean character
classifiers for the same structure. -/
def is_valid_identifier (name : String) : Bool :=
  !name.data.isEmpty
    && ((name.data.head?.map (fun c => c.isAlpha || c == '_')).getD false)
    && name.data.all (fun c => c.isAlphanum || c == '_' || c == '$')

/-- `with_schema_name`: validate, reject with a configuration error before
any database access, otherwise store the name. -/
def with_schema_name (s : PostgresStore) (schema_name : String) :
    Except String PostgresStore :=
  if !is_valid_identifier schema_name then
    .error "Invalid schema name"
  else
    .ok { s with schema_name := schema_name }

/-- `with_table_name`: validate, reject with a configuration error before
any database access, otherwise store the name. -/
def with_table_name (s : PostgresStore) (table_name : String) :
    Except String PostgresStore :=
  if !is_valid_identifier table_name then
    .error "Invalid table name"
  else
    .ok { s with table_name := table_name }

/-! ## Schema provisioning (`migrate`) -/

/-- The SQL error states `migrate` distinguishes, plus all others. -/
inductive SqlState
  | duplicate_schema
  | unique_violation
  | other : String → SqlState
deriving DecidableEq, Repr

/-- The error filter in `migrate`:
`code == &SqlState::DUPLICATE_SCHEMA || code == &SqlState::UNIQUE_VIOLATION`. -/
def tolerated (e : SqlState) : Bool :=
  e == .duplicate_schema || e == .unique_violation

/-- The database catalog visible to `migrate`: existing schemas and tables. -/
structure Catalog where
  schemas : List String
  tables : List (String × String)
deriving DecidableEq, Repr

/-- `create schema if not exists "{schema_name}"` when it succeeds. -/
def create_schema_if_not_exists (cat : Catalog) (s : String) : Catalog :=
  if s ∈ cat.schemas then cat else { cat with schemas := cat.schemas ++ [s] }

/-- `create table if not exists "{schema_name}"."{table_name}" (...)`:
existence-guarded, unconditionally idempotent. -/
def create_table_if_not_exists (cat : Catalog) (s t : String) : Catalog :=
  if (s, t) ∈ cat.tables then cat else { cat with tables := cat.tables ++ [(s, t)] }

/-- The tail of `migrate` after schema creation: run the guarded table
creation and commit, or propagate its error (`tableErr` injects the
outcome of the table statement). -/
def migrate_table_step (cat : Catalog) (s t : String) (tableErr : Option SqlState) :
    Except SqlState Catalog :=
  match tableErr with
  | some e => .error e
  | none => .ok (create_table_if_not_exists cat s t)

/-- `migrate`: create the schema, treating a `DUPLICATE_SCHEMA` or
`UNIQUE_VIOLATION` failure (a concurrent provisioner won the race) as
success, propagating any other failure; then the guarded table creation.
`schemaErr`/`tableErr` inject the environment outcome of each statement:
`none` is success, `some e` a failure with state `e`. -/
def migrate (cat : Catalog) (s t : String) (schemaErr tableErr : Option SqlState) :
    Except SqlState Catalog :=
  match schemaErr with
  | none => migrate_table_step (create_schema_if_not_exists cat s) s t tableErr
  | some e =>
    if tolerated e then migrate_table_step cat s t tableErr
    else .error e

/-! ## Codec round-trip lemmas -/

theorem map_ofNat_toNat (l : List Char) : (l.map Char.toNat).map Char.ofNat = l := by
  induction l with
  | nil => rfl
  | cons c cs ih => simp [Char.ofNat_toNat, ih]

theorem decString_encString (s : String) (t : List Nat) :
    decString (encString s ++ t) = some (s, t) := by
  have hlen : s.data.length = (s.data.map Char.toNat).length := by simp
  simp only [encString, List.cons_append, decString]
  rw [if_pos (by simp)]
  rw [hlen, List.take_left, List.drop_left, map_ofNat_toNat]

theorem decInt_encInt (i : Int) (t : List Nat) :
    decInt (encInt i ++ t) = some (i, t) := by
  by_cases hi : i < 0
  · have h1 : encInt i ++ t = 1 :: ((-i).toNat :: t) := by simp [encInt, hi]
    have h2 : decInt (1 :: ((-i).toNat :: t)) = some (-(((-i).toNat : Nat) : Int), t) := rfl
    rw [h1, h2]
    have h3 : -((((-i).toNat : Nat)) : Int) = i := by omega
    rw [h3]
  · have h1 : encInt i ++ t = 0 :: (i.toNat :: t) := by simp [encInt, hi]
    have h2 : decInt (0 :: (i.toNat :: t)) = some (((i.toNat : Nat) : Int), t) := rfl
    rw [h1, h2]
    have h3 : (((i.toNat : Nat)) : Int) = i := by omega
    rw [h3]

theorem decPair_encPair (p : String × String) (t : List Nat) :
    decPair (encPair p ++ t) = some (p, t) := by
  simp [encPair, decPair, List.append_assoc, decString_encString]

theorem decPairsAux_encPairsBody (ps : List (String × String)) (t : List Nat) :
    decPairsAux ps.length (encPairsBody ps ++ t) = some (ps, t) := by
  induction ps generalizing t with
  | nil => simp [encPairsBody, decPairsAux]
  | cons p rest ih =>
    simp [encPairsBody, decPairsAux, List.append_assoc, decPair_encPair, ih]

theorem decPairs_encPairs (ps : List (String × String)) (t : List Nat) :
    decPairs (encPairs ps ++ t) = some (ps, t) := by
  simp [encPairs, decPairs, decPairsAux_encPairsBody]

/-- The codec round-trips on every record. -/
theorem decRecord_encRecord (r : Record) :
    decRecord (encRecord r) = some r := by
  have h : encRecord r =
      encString r.id ++ (encPairs r.data ++ encInt r.expiry_date) := by
    simp [encRecord]
  have h1 := decString_encString r.id (encPairs r.data ++ encInt r.expiry_date)
  have h2 := decPairs_encPairs r.data (encInt r.expiry_date)
  have h3 : decInt (encInt r.expiry_date) = some (r.expiry_date, []) := by
    simpa using decInt_encInt r.expiry_date []
  rw [h]
  simp [decRecord, h1, h2, h3]

/-! ## Helper lemmas on the store operations -/

theorem id_exists_iff (db : DB) (i : String) :
    id_exists db i = true ↔ ∃ row ∈ db, row.id = i := by
  simp [id_exists, List.any_eq_true]

theorem id_exists_false_iff (db : DB) (i : String) :
    id_exists db i = false ↔ ∀ row ∈ db, row.id ≠ i := by
  rw [← Bool.not_eq_true, id_exists_iff]
  push_neg
  rfl

theorem save_map_id_of_exists (db : DB) (r : Record) (h : id_exists db r.id = true) :
    (save_with_conn db r).map Row.id = db.map Row.id := by
  simp only [save_with_conn, if_pos h, List.map_map]
  apply List.map_congr_left
  intro row _
  by_cases hrow : row.id = r.id
  · simp [Function.comp_apply, hrow, upsertRow]
  · simp [Function.comp_apply, hrow]

theorem uniqueIds_save (db : DB) (r : Record) (h : uniqueIds db) :
    uniqueIds (save_with_conn db r) := by
  by_cases he : id_exists db r.id = true
  · unfold uniqueIds
    rw [save_map_id_of_exists db r he]
    exact h
  · rw [Bool.not_eq_true] at he
    unfold uniqueIds save_with_conn
    rw [if_neg (by simp [he]), List.map_append]
    refine List.Nodup.append h (by simp) ?_
    simp only [List.map_cons, List.map_nil, List.disjoint_singleton]
    rw [id_exists_false_iff] at he
    simp only [List.mem_map, not_exists]
    rintro row ⟨hmem, hid⟩
    exact he row hmem hid

theorem uniqueIds_filter (db : DB) (p : Row → Bool) (h : uniqueIds db) :
    uniqueIds (db.filter p) :=
  List.Nodup.sublist (List.Sublist.map Row.id (List.filter_sublist db)) h

theorem findFreeId_free (db : DB) (i : String) (gen : List String) (j : String)
    (h : findFreeId db i gen = some j) : id_exists db j = false := by
  induction gen generalizing i with
  | nil =>
    unfold findFreeId at h
    by_cases he : id_exists db i = true
    · simp [he] at h
    · rw [if_neg he] at h
      cases h
      rw [Bool.not_eq_true] at he
      exact he
  | cons g gs ih =>
    unfold findFreeId at h
    by_cases he : id_exists db i = true
    · rw [if_pos he] at h
      exact ih g h
    · rw [if_neg he] at h
      cases h
      rw [Bool.not_eq_true] at he
      exact he

theorem findFreeId_none_iff (db : DB) (i : String) (gen : List String) :
    findFreeId db i gen = none ↔ ∀ c ∈ i :: gen, id_exists db c = true := by
  induction gen generalizing i with
  | nil =>
    unfold findFreeId
    by_cases he : id_exists db i = true
    · simp [he]
    · simp [if_neg he, he]
  | cons g gs ih =>
    unfold findFreeId
    by_cases he : id_exists db i = true
    · rw [if_pos he]
      rw [ih g]
      constructor
      · intro hall c hc
        rcases List.mem_cons.mp hc with hc | hc
        · subst hc; exact he
        · exact hall c hc
      · intro hall c hc
        exact hall c (List.mem_cons_of_mem _ hc)
    · simp only [if_neg he]
      constructor
      · intro hcon
        cases hcon
      · intro hall
        exact absurd (hall i (List.mem_cons_self _ _)) he

/-- Well-formed table: every stored `data` column deserializes (it was
written by `save_with_conn`, which always stores `rmp_serde::to_vec` output). -/
def wf (db : DB) : Prop := ∀ row ∈ db, ∃ rec, decRecord row.data = some rec

theorem rowLive_iff (id : String) (now : Int) (row : Row) :
    rowLive id now row = true ↔ row.id = id ∧ now < row.expiry_date := by
  simp [rowLive]

theorem load_ok_some_iff (db : DB) (id : String) (now : Int) (hwf : wf db) :
    (∃ rec, load db id now = .ok (some rec)) ↔
      ∃ row ∈ db, row.id = id ∧ now < row.expiry_date := by
  cases hf : db.find? (rowLive id now) with
  | none =>
    have hall := List.find?_eq_none.mp hf
    simp only [load, hf]
    constructor
    · rintro ⟨rec, hrec⟩
      exact absurd hrec (by simp)
    · rintro ⟨row, hmem, hid, hlt⟩
      exact absurd ((rowLive_iff id now row).mpr ⟨hid, hlt⟩) (by simpa using hall row hmem)
  | some row =>
    have hp := (rowLive_iff id now row).mp (List.find?_some hf)
    have hmem := List.mem_of_find?_eq_some hf
    obtain ⟨rec, hrec⟩ := hwf row hmem
    simp only [load, hf, hrec]
    constructor
    · intro _
      exact ⟨row, hmem, hp.1, hp.2⟩
    · intro _
      exact ⟨rec, rfl⟩

theorem load_ok_none_iff (db : DB) (id : String) (now : Int) (hwf : wf db) :
    load db id now = .ok none ↔
      ¬∃ row ∈ db, row.id = id ∧ now < row.expiry_date := by
  cases hf : db.find? (rowLive id now) with
  | none =>
    have hall := List.find?_eq_none.mp hf
    simp only [load, hf]
    constructor
    · rintro - ⟨row, hmem, hid, hlt⟩
      exact absurd ((rowLive_iff id now row).mpr ⟨hid, hlt⟩) (by simpa using hall row hmem)
    · intro _
      trivial
  | some row =>
    have hp := (rowLive_iff id now row).mp (List.find?_some hf)
    have hmem := List.mem_of_find?_eq_some hf
    obtain ⟨rec, hrec⟩ := hwf row hmem
    simp only [load, hf, hrec]
    constructor
    · intro hcontra
      exact absurd hcontra (by simp)
    · intro hno
      exact absurd ⟨row, hmem, hp.1, hp.2⟩ hno

theorem find?_map_upsert (db : DB) (r : Record) (now : Int) (h : now < r.expiry_date)
    (he : id_exists db r.id = true) :
    (db.map (fun row => if row.id == r.id then upsertRow r else row)).find?
      (rowLive r.id now) = some (upsertRow r) := by
  induction db with
  | nil => simp [id_exists] at he
  | cons row rest ih =>
    by_cases hrow : row.id = r.id
    · have hif : (if (row.id == r.id) = true then upsertRow r else row) = upsertRow r := by
        simp [hrow]
      rw [List.map_cons, hif, List.find?_cons_of_pos]
      simp [rowLive, upsertRow, timestamp_from_offset, h]
    · have he2 : id_exists rest r.id = true := by
        simp only [id_exists, List.any_cons, Bool.or_eq_true, beq_iff_eq] at he
        rcases he with he | he
        · exact absurd he hrow
        · exact he
      have hif : (if (row.id == r.id) = true then upsertRow r else row) = row := by
        simp [hrow]
      rw [List.map_cons, hif, List.find?_cons_of_neg]
      · exact ih he2
      · simp [rowLive, hrow]

theorem find?_append_upsert (db : DB) (r : Record) (now : Int) (h : now < r.expiry_date)
    (he : id_exists db r.id = false) :
    (db ++ [upsertRow r]).find? (rowLive r.id now) = some (upsertRow r) := by
  induction db with
  | nil =>
    rw [List.nil_append, List.find?_cons_of_pos]
    simp [rowLive, upsertRow, timestamp_from_offset, h]
  | cons row rest ih =>
    have he2 : id_exists rest r.id = false := by
      simp only [id_exists, List.any_cons, Bool.or_eq_false_iff] at he
      exact he.2
    have hrow : ¬(row.id = r.id) := by
      simp only [id_exists, List.any_cons, Bool.or_eq_false_iff, beq_eq_false_iff_ne] at he
      exact he.1
    rw [List.cons_append, List.find?_cons_of_neg]
    · exact ih he2
    · simp [rowLive, hrow]

theorem load_save_with_conn (db : DB) (r : Record) (now : Int) (h : now < r.expiry_date) :
    load (save_with_conn db r) r.id now = .ok (some r) := by
  have hf : (save_with_conn db r).find? (rowLive r.id now) = some (upsertRow r) := by
    by_cases he : id_exists db r.id = true
    · rw [save_with_conn, if_pos he]
      exact find?_map_upsert db r now h he
    · rw [Bool.not_eq_true] at he
      rw [save_with_conn, if_neg (by simp [he])]
      exact find?_append_upsert db r now h he
  simp [load, hf, upsertRow, decRecord_encRecord]

theorem countP_id_eq_zero (db : DB) (i : String) (h : id_exists db i = false) :
    db.countP (fun row => row.id == i) = 0 := by
  rw [List.countP_eq_zero]
  intro row hmem
  simp only [beq_iff_eq]
  exact (id_exists_false_iff db i).mp h row hmem

theorem countP_id_eq_one (db : DB) (i : String) (huniq : uniqueIds db)
    (he : id_exists db i = true) :
    db.countP (fun row => row.id == i) = 1 := by
  induction db with
  | nil => simp [id_exists] at he
  | cons row rest ih =>
    have hnodup := huniq
    rw [uniqueIds, List.map_cons, List.nodup_cons] at hnodup
    obtain ⟨hnotin, hrest⟩ := hnodup
    by_cases hrow : row.id = i
    · rw [List.countP_cons_of_pos _ _ (by simp [hrow])]
      have h0 : rest.countP (fun row => row.id == i) = 0 := by
        rw [List.countP_eq_zero]
        intro row2 hmem2
        simp only [beq_iff_eq]
        intro heq
        exact hnotin (List.mem_map.mpr ⟨row2, hmem2, by rw [heq, hrow]⟩)
      rw [h0]
    · rw [List.countP_cons_of_neg _ _ (by simp [hrow])]
      have he2 : id_exists rest i = true := by
        simp only [id_exists, List.any_cons, Bool.or_eq_true, beq_iff_eq] at he
        rcases he with he | he
        · exact absurd he hrow
        · exact he
      exact ih hrest he2

theorem mem_save_of_ne (db : DB) (r : Record) (row : Row) (hne : row.id ≠ r.id) :
    row ∈ save_with_conn db r ↔ row ∈ db := by
  have hups : (upsertRow r).id = r.id := rfl
  by_cases he : id_exists db r.id = true
  · rw [save_with_conn, if_pos he]
    constructor
    · intro hmem
      obtain ⟨row0, hmem0, heq⟩ := List.mem_map.mp hmem
      by_cases h0 : row0.id = r.id
      · rw [if_pos (by simp [h0])] at heq
        exact absurd (by rw [← heq]; rfl : row.id = r.id) hne
      · rw [if_neg (by simp [h0])] at heq
        rw [← heq]
        exact hmem0
    · intro hmem
      refine List.mem_map.mpr ⟨row, hmem, ?_⟩
      rw [if_neg (by simp [hne])]
  · rw [Bool.not_eq_true] at he
    rw [save_with_conn, if_neg (by simp [he])]
    rw [List.mem_append, List.mem_singleton]
    constructor
    · rintro (hmem | heq)
      · exact hmem
      · exact absurd (by rw [heq]; rfl : row.id = r.id) hne
    · intro hmem
      exact Or.inl hmem

theorem mem_save_id_eq (db : DB) (r : Record) (row : Row)
    (hmem : row ∈ save_with_conn db r) (hid : row.id = r.id) : row = upsertRow r := by
  by_cases he : id_exists db r.id = true
  · rw [save_with_conn, if_pos he] at hmem
    obtain ⟨row0, hmem0, heq⟩ := List.mem_map.mp hmem
    by_cases h0 : row0.id = r.id
    · rw [if_pos (by simp [h0])] at heq
      exact heq.symm
    · rw [if_neg (by simp [h0])] at heq
      exact absurd (heq ▸ hid) h0
  · rw [Bool.not_eq_true] at he
    rw [save_with_conn, if_neg (by simp [he]), List.mem_append, List.mem_singleton] at hmem
    rcases hmem with hmem | heq
    · exact absurd hid ((id_exists_false_iff db r.id).mp he row hmem)
    · exact heq

theorem countP_save_eq_one (db : DB) (r : Record) (huniq : uniqueIds db) :
    (save_with_conn db r).countP (fun row => row.id == r.id) = 1 := by
  by_cases he : id_exists db r.id = true
  · rw [save_with_conn, if_pos he, List.countP_map]
    have hcong : ∀ row ∈ db,
        (((fun row => row.id == r.id) ∘
            fun row => if row.id == r.id then upsertRow r else row) row = true)
          ↔ ((fun row => row.id == r.id) row = true) := by
      intro row _
      by_cases h0 : row.id = r.id
      · simp [Function.comp_apply, h0, upsertRow]
      · simp [Function.comp_apply, h0]
    rw [List.countP_congr hcong]
    exact countP_id_eq_one db r.id huniq he
  · rw [Bool.not_eq_true] at he
    rw [save_with_conn, if_neg (by simp [he]), List.countP_append, countP_id_eq_zero db r.id he]
    simp [upsertRow]

theorem count_eq_one_of_le_one_of_mem {α : Type} [BEq α] [LawfulBEq α] {l : List α} {a : α}
    (h1 : l.count a ≤ 1) (h2 : a ∈ l) : l.count a = 1 := by
  have := List.count_pos_iff.mpr h2
  omega

theorem create_eq_none_iff (db : DB) (r : Record) (gen : List String) :
    create db r gen = none ↔ findFreeId db r.id gen = none := by
  unfold create
  cases hf : findFreeId db r.id gen <;> simp

/-! ## Helper lemmas on provisioning -/

theorem schemas_create_table (cat : Catalog) (s t : String) :
    (create_table_if_not_exists cat s t).schemas = cat.schemas := by
  unfold create_table_if_not_exists
  split <;> rfl

theorem tables_create_schema (cat : Catalog) (s : String) :
    (create_schema_if_not_exists cat s).tables = cat.tables := by
  unfold create_schema_if_not_exists
  split <;> rfl

theorem mem_schemas_create_schema (cat : Catalog) (s : String) :
    s ∈ (create_schema_if_not_exists cat s).schemas := by
  unfold create_schema_if_not_exists
  split
  · assumption
  · simp

theorem mem_tables_create_table (cat : Catalog) (s t : String) :
    (s, t) ∈ (create_table_if_not_exists cat s t).tables := by
  unfold create_table_if_not_exists
  split
  · assumption
  · simp

theorem count_schemas_create_schema (cat : Catalog) (s : String)
    (h : cat.schemas.count s ≤ 1) :
    (create_schema_if_not_exists cat s).schemas.count s = 1 := by
  unfold create_schema_if_not_exists
  split
  · exact count_eq_one_of_le_one_of_mem h (by assumption)
  · rw [List.count_append, List.count_eq_zero_of_not_mem (by assumption)]
    simp

theorem count_tables_create_table (cat : Catalog) (s t : String)
    (h : cat.tables.count (s, t) ≤ 1) :
    (create_table_if_not_exists cat s t).tables.count (s, t) = 1 := by
  unfold create_table_if_not_exists
  split
  · exact count_eq_one_of_le_one_of_mem h (by assumption)
  · rw [List.count_append, List.count_eq_zero_of_not_mem (by assumption)]
    simp

theorem create_schema_of_mem (cat : Catalog) (s : String) (h : s ∈ cat.schemas) :
    create_schema_if_not_exists cat s = cat := by
  unfold create_schema_if_not_exists
  rw [if_pos h]

theorem create_table_of_mem (cat : Catalog) (s t : String) (h : (s, t) ∈ cat.tables) :
    create_table_if_not_exists cat s t = cat := by
  unfold create_table_if_not_exists
  rw [if_pos h]

/-- The catalog after a clean `migrate`. -/
def provisioned (cat : Catalog) (s t : String) : Catalog :=
  create_table_if_not_exists (create_schema_if_not_exists cat s) s t

/-! ## Concrete instances used by witnesses -/

def recA : Record := ⟨"a", [("k", "v")], 100⟩

def recA2 : Record := ⟨"a", [("k", "w")], 200⟩

def rowA : Row := upsertRow recA

def dbA : DB := [rowA]

theorem wf_dbA : wf dbA := by
  intro row hrow
  simp only [dbA, List.mem_singleton] at hrow
  subst hrow
  exact ⟨recA, decRecord_encRecord recA⟩

/-! ## The claims -/

/-- C1: every store operation preserves the invariant that each identifier
occupies at most one row; for every `create` that returns `Ok`, the row was
inserted under an id no existing row held before the insert (expired rows
included, since `id_exists` does not filter on expiry), the existence check
and the insert both running against the one transaction snapshot `db`; and
`record.id` is regenerated and re-checked until a free id is found (`create`
fails to return only when every candidate id is taken). -/
theorem store_ops_preserve_unique_ids (db : DB) (r : Record) (gen : List String)
    (i : String) (t : Int) (h : uniqueIds db) :
    uniqueIds (save db r)
    ∧ uniqueIds (delete db i)
    ∧ uniqueIds (delete_expired db t)
    ∧ (∀ db', create db r gen = some db' →
        ∃ freeId, id_exists db freeId = false
          ∧ db' = save_with_conn db { r with id := freeId }
          ∧ uniqueIds db')
    ∧ (create db r gen = none ↔ ∀ c ∈ r.id :: gen, id_exists db c = true) := by
  refine ⟨uniqueIds_save db r h, uniqueIds_filter db _ h, uniqueIds_filter db _ h, ?_, ?_⟩
  · intro db' hc
    cases hf : findFreeId db r.id gen with
    | none => simp [create, hf] at hc
    | some j =>
      have hsave : db' = save_with_conn db { r with id := j } := by
        simp only [create, hf, Option.some.injEq] at hc
        exact hc.symm
      exact ⟨j, findFreeId_free db r.id gen j hf, hsave,
        hsave ▸ uniqueIds_save db { r with id := j } h⟩
  · rw [create_eq_none_iff, findFreeId_none_iff]

/-- Witness for C1 at a concrete table and record. -/
theorem store_ops_preserve_unique_ids_witness :
    uniqueIds (save [Row.mk "a" [] 0] (Record.mk "b" [] 5)) :=
  (store_ops_preserve_unique_ids [Row.mk "a" [] 0] (Record.mk "b" [] 5) [] "x" 0
    (by decide)).1

/-- C2: `load(id)` returns a record iff a row for that id exists with stored
expiry strictly greater than now, and returns `None` both when no such row
exists and when every row for the id is expired — the two cases yield the
same `Ok(None)` result, and a not-yet-evicted expired row still yields
`None`. -/
theorem load_returns_iff_present_unexpired (db : DB) (id : String) (now : Int)
    (hwf : wf db) :
    ((∃ rec, load db id now = .ok (some rec)) ↔
      ∃ row ∈ db, row.id = id ∧ now < row.expiry_date)
    ∧ (load db id now = .ok none ↔
      ¬∃ row ∈ db, row.id = id ∧ now < row.expiry_date) :=
  ⟨load_ok_some_iff db id now hwf, load_ok_none_iff db id now hwf⟩

/-- Witness for C2: a live row is not reported as `None`. -/
theorem load_returns_iff_present_unexpired_witness :
    ¬(load dbA "a" 50 = Except.ok none) :=
  fun hcontra =>
    ((load_returns_iff_present_unexpired dbA "a" 50 wf_dbA).2.mp hcontra)
      ⟨rowA, by decide, by decide, by decide⟩

/-- C3: `save(record)` is an upsert by primary key — afterwards exactly one
row with `record.id` exists, that row holds the serialized payload and the
new expiry, rows for every other id are untouched, and the primary-key
invariant is preserved. -/
theorem save_upsert_by_primary_key (db : DB) (r : Record) (h : uniqueIds db) :
    (save db r).countP (fun row => row.id == r.id) = 1
    ∧ (∀ row ∈ save db r, row.id = r.id → row = upsertRow r)
    ∧ (∀ row : Row, row.id ≠ r.id → (row ∈ save db r ↔ row ∈ db))
    ∧ uniqueIds (save db r) :=
  ⟨countP_save_eq_one db r h,
   fun row hmem hid => mem_save_id_eq db r row hmem hid,
   fun row hne => mem_save_of_ne db r row hne,
   uniqueIds_save db r h⟩

/-- Witness for C3: saving over an existing id leaves exactly one row for it. -/
theorem save_upsert_by_primary_key_witness :
    (save dbA recA2).countP (fun row => row.id == recA2.id) = 1 :=
  (save_upsert_by_primary_key dbA recA2 (by decide)).1

/-- C4: `migrate` treats exactly a duplicate-schema or unique-violation
failure of schema creation as success and continues; any other failure, at
either step, propagates unchanged with no retry; a clean run and a rerun on
the provisioned catalog both succeed and leave exactly one schema and one
table, the table statement being existence-guarded. -/
theorem migrate_idempotent_tolerates_duplicate (cat : Catalog) (s t : String)
    (hs : cat.schemas.count s ≤ 1) (ht : cat.tables.count (s, t) ≤ 1) :
    (∀ e, tolerated e = false → ∀ te, migrate cat s t (some e) te = .error e)
    ∧ (∀ e, migrate cat s t none (some e) = .error e)
    ∧ (∀ e e2, tolerated e = true → migrate cat s t (some e) (some e2) = .error e2)
    ∧ (migrate cat s t none none = .ok (provisioned cat s t)
        ∧ (provisioned cat s t).schemas.count s = 1
        ∧ (provisioned cat s t).tables.count (s, t) = 1
        ∧ migrate (provisioned cat s t) s t none none = .ok (provisioned cat s t))
    ∧ (∀ e, tolerated e = true → s ∈ cat.schemas →
        migrate cat s t (some e) none = .ok (create_table_if_not_exists cat s t)
          ∧ (create_table_if_not_exists cat s t).schemas.count s = 1
          ∧ (create_table_if_not_exists cat s t).tables.count (s, t) = 1) := by
  refine ⟨?_, ?_, ?_, ⟨rfl, ?_, ?_, ?_⟩, ?_⟩
  · intro e hne te
    simp [migrate, hne]
  · intro e
    rfl
  · intro e e2 htol
    simp [migrate, htol, migrate_table_step]
  · rw [provisioned, schemas_create_table]
    exact count_schemas_create_schema cat s hs
  · rw [provisioned]
    apply count_tables_create_table
    rw [tables_create_schema]
    exact ht
  · have hmem_s : s ∈ (provisioned cat s t).schemas := by
      rw [provisioned, schemas_create_table]
      exact mem_schemas_create_schema cat s
    have hmem_t : (s, t) ∈ (provisioned cat s t).tables := by
      rw [provisioned]
      exact mem_tables_create_table _ s t
    show migrate_table_step (create_schema_if_not_exists (provisioned cat s t) s) s t none
        = .ok (provisioned cat s t)
    rw [create_schema_of_mem _ s hmem_s]
    show Except.ok (create_table_if_not_exists (provisioned cat s t) s t)
        = .ok (provisioned cat s t)
    rw [create_table_of_mem _ s t hmem_t]
  · intro e htol hmem
    refine ⟨by simp [migrate, htol, migrate_table_step], ?_, ?_⟩
    · rw [schemas_create_table]
      exact count_eq_one_of_le_one_of_mem hs hmem
    · exact count_tables_create_table cat s t ht

/-- Witness for C4: a non-tolerated error propagates, and a clean run on an
empty catalog succeeds. -/
theorem migrate_idempotent_tolerates_duplicate_witness :
    migrate ⟨[], []⟩ "tower_sessions" "session" (some (SqlState.other "boom")) none
      = .error (SqlState.other "boom") :=
  (migrate_idempotent_tolerates_duplicate ⟨[], []⟩ "tower_sessions" "session"
    (by decide) (by decide)).1 (SqlState.other "boom") (by decide) none

/-- C5 counterexample: the claim says the result of `load` does not depend
on the application clock.  Two invocations whose clock states share the
server clock value and differ only in the application host clock give
different results, because the code passes
`timestamp_from_offset(OffsetDateTime::now_utc())` — the application clock
reading — as the `$2` comparison parameter. -/
theorem load_depends_on_app_clock :
    Clocks.serverNow ⟨50, 0⟩ = Clocks.serverNow ⟨150, 0⟩
    ∧ load_op dbA "a" ⟨50, 0⟩ ≠ load_op dbA "a" ⟨150, 0⟩ := by
  refine ⟨rfl, ?_⟩
  have h1 : load_op dbA "a" ⟨50, 0⟩ = Except.ok (some recA) := rfl
  have h2 : load_op dbA "a" ⟨150, 0⟩ = Except.ok none := rfl
  intro hcontra
  rw [h1, h2] at hcontra
  simp at hcontra

/-- C5 (amended): the `now` against which a row's expiry is compared is the
application host's UTC clock reading, converted by `timestamp_from_offset`
and passed as a query parameter; the comparison happens in the query
against that parameter (not re-read in-process), so the result is strict
comparison of stored expiry against the application clock value and is
independent of the server clock. -/
theorem load_app_clock_parameter (db : DB) (id : String) (a sn sn' : Int)
    (hwf : wf db) :
    load_op db id ⟨a, sn⟩ = load db id (timestamp_from_offset a)
    ∧ load_op db id ⟨a, sn⟩ = load_op db id ⟨a, sn'⟩
    ∧ ((∃ rec, load_op db id ⟨a, sn⟩ = .ok (some rec)) ↔
        ∃ row ∈ db, row.id = id ∧ a < row.expiry_date) :=
  ⟨rfl, rfl, load_ok_some_iff db id a hwf⟩

/-- Witness for C5 (amended): server clock value does not affect `load`. -/
theorem load_app_clock_parameter_witness :
    load_op dbA "a" ⟨50, 123⟩ = load_op dbA "a" ⟨50, 456⟩ :=
  (load_app_clock_parameter dbA "a" 50 123 456 wf_dbA).2.1

/-- C6: `delete_expired` removes exactly the rows whose stored expiry is
strictly earlier than the server-evaluated now: a row survives the sweep
iff it was present and its expiry is at or after the server clock value. -/
theorem delete_expired_exact_scope (db : DB) (ck : Clocks) (row : Row) :
    row ∈ delete_expired_op db ck ↔ row ∈ db ∧ ck.serverNow ≤ row.expiry_date := by
  simp [delete_expired_op, delete_expired, List.mem_filter, not_lt]

/-- C7: `delete(id)` always yields a table with no row for `id`, keeps every
row of any other id, is a no-op when the id is absent (deleting a
non-existent id is not an error), and is idempotent. -/
theorem delete_idempotent (db : DB) (id : String) :
    (∀ row ∈ delete db id, row.id ≠ id)
    ∧ (∀ row ∈ db, row.id ≠ id → row ∈ delete db id)
    ∧ (id_exists db id = false → delete db id = db)
    ∧ delete (delete db id) id = delete db id := by
  refine ⟨?_, ?_, ?_, ?_⟩
  · intro row hmem
    have := (List.mem_filter.mp hmem).2
    simpa using this
  · intro row hmem hne
    exact List.mem_filter.mpr ⟨hmem, by simpa using hne⟩
  · intro hno
    apply List.filter_eq_self.mpr
    intro row hmem
    simpa using (id_exists_false_iff db id).mp hno row hmem
  · apply List.filter_eq_self.mpr
    intro row hmem
    exact (List.mem_filter.mp hmem).2

/-- Witness for C7: deleting an id with no row leaves the table unchanged. -/
theorem delete_idempotent_witness : delete dbA "nope" = dbA :=
  (delete_idempotent dbA "nope").2.2.1 (by decide)

/-- C8: setting a schema or table name fails with a configuration error
exactly when the name violates the identifier rule — non-empty, first
character a letter or underscore, all characters alphanumeric, underscore
or dollar — with no database access involved (the constructors touch only
the configuration record); a passing name is accepted and stored. -/
theorem name_validation (s : PostgresStore) (name : String) :
    ((∃ e, with_schema_name s name = .error e) ↔ is_valid_identifier name = false)
    ∧ (is_valid_identifier name = true →
        with_schema_name s name = .ok { s with schema_name := name })
    ∧ ((∃ e, with_table_name s name = .error e) ↔ is_valid_identifier name = false)
    ∧ (is_valid_identifier name = true →
        with_table_name s name = .ok { s with table_name := name })
    ∧ (is_valid_identifier name = true ↔
        (name ≠ "" ∧ (∃ c cs, name.data = c :: cs ∧ (c.isAlpha = true ∨ c = '_'))
          ∧ ∀ c ∈ name.data, (c.isAlphanum = true ∨ c = '_' ∨ c = '$'))) := by
  have hname : (name = "") ↔ name.data = [] := by
    constructor
    · intro h
      rw [h]
    · intro h
      cases name with
      | mk l =>
        simp only at h
        rw [h]
  refine ⟨?_, ?_, ?_, ?_, ?_⟩
  · cases hv : is_valid_identifier name <;> simp [with_schema_name, hv]
  · intro hv
    simp [with_schema_name, hv]
  · cases hv : is_valid_identifier name <;> simp [with_table_name, hv]
  · intro hv
    simp [with_table_name, hv]
  · cases hd : name.data with
    | nil =>
      have h0 : name = "" := hname.mpr hd
      simp [is_valid_identifier, hd, h0]
    | cons c cs =>
      have hne : ¬(name = "") := fun h => by
        rw [hname] at h
        rw [h] at hd
        cases hd
      constructor
      · intro hv
        simp only [is_valid_identifier, hd, Bool.and_eq_true] at hv
        obtain hall := hv.2
        have hhead : c.isAlpha = true ∨ c = '_' := by
          have := hv.1.2
          simpa using this
        rw [List.all_eq_true] at hall
        refine ⟨hne, ⟨c, cs, rfl, hhead⟩, ?_⟩
        intro x hx
        have := hall x hx
        simpa [or_assoc] using this
      · rintro ⟨-, ⟨c1, cs1, ha, hfirst⟩, hall⟩
        cases ha
        simp only [is_valid_identifier, hd, Bool.and_eq_true]
        refine ⟨⟨by simp, by simpa using hfirst⟩, ?_⟩
        rw [List.all_eq_true]
        intro x hx
        have := hall x hx
        simpa [or_assoc] using this

/-- Witness for C8: a valid name is accepted and stored. -/
theorem name_validation_witness :
    with_schema_name PostgresStore.new "my_schema1" =
      Except.ok { PostgresStore.new with schema_name := "my_schema1" } :=
  (name_validation PostgresStore.new "my_schema1").2.1 (by decide)

/-- C9: the codec round-trips — deserializing the bytes produced by
serializing any payload yields it back — and consequently a `load` after a
`save` of a record (before its expiry) returns a payload equal to the one
written. -/
theorem codec_round_trip_load_after_save :
    (∀ r : Record, decRecord (encRecord r) = some r)
    ∧ (∀ (db : DB) (r : Record) (now : Int), now < r.expiry_date →
        load (save db r) r.id now = .ok (some r)) :=
  ⟨decRecord_encRecord, fun db r now h => load_save_with_conn db r now h⟩

/-- Witness for C9 at a concrete record. -/
theorem codec_round_trip_load_after_save_witness :
    load (save [] recA) recA.id 50 = .ok (some recA) :=
  codec_round_trip_load_after_save.2 [] recA 50 (by decide)

/-- C10: both expiry comparisons are strict, so a row whose expiry equals
the current instant (same reading on both clocks) is in neither scope:
`load` (`expiry_date > $2`) returns `None` for it while `delete_expired`
(`expiry_date < now()`) keeps it — already unreadable, not yet evictable. -/
theorem expiry_instant_boundary (db : DB) (r : Row) (ck : Clocks) (hmem : r ∈ db)
    (happ : r.expiry_date = ck.appNow) (hsrv : r.expiry_date = ck.serverNow)
    (huniq : uniqueIds db) :
    load_op db r.id ck = .ok none ∧ r ∈ delete_expired_op db ck := by
  constructor
  · have hnone : db.find? (rowLive r.id ck.appNow) = none := by
      rw [List.find?_eq_none]
      intro row hrow
      by_cases hid : row.id = r.id
      · have heq : row = r := List.inj_on_of_nodup_map huniq hrow hmem hid
        subst heq
        simp [rowLive, ← happ]
      · simp [rowLive, hid]
    simp [load_op, load, timestamp_from_offset, hnone]
  · refine List.mem_filter.mpr ⟨hmem, ?_⟩
    simp [← hsrv]

/-- Witness for C10 at the exact expiry instant. -/
theorem expiry_instant_boundary_witness :
    load_op [Row.mk "a" [] 7] "a" ⟨7, 7⟩ = .ok none
      ∧ Row.mk "a" [] 7 ∈ delete_expired_op [Row.mk "a" [] 7] ⟨7, 7⟩ :=
  expiry_instant_boundary [Row.mk "a" [] 7] (Row.mk "a" [] 7) ⟨7, 7⟩
    (by decide) (by decide) (by decide) (by decide)

end Dainty
